import Mathlib

/-!
Shallow embedding of the bra3n serverless pipeline.

Source files embedded here:
- the summarize-text function, in particular formatSummaryText
  (src/unnamed/part_000, lines 65-85): a chain of six JavaScript regex
  rewrites followed by a trim;
- the notion-import-page function (src/unnamed/part_001): request
  validation, project-access check, Notion page/blocks fetches, title
  resolution, recursive block-to-text conversion, and note persistence.

Strings are modelled as List Char. All definitions are structurally
recursive so that closed instances evaluate by rfl and decide.
-/

def str (s : String) : List Char := s.data

/-- Character class of the JavaScript regex class backslash-s
(ECMAScript WhiteSpace and LineTerminator, the set used by replace and
by String.prototype.trim). -/
def isWs (c : Char) : Bool :=
  c == ' ' || c == '\t' || c == '\n' || c == '\r' || c == '\x0B' || c == '\x0C' ||
  c.val == 0xA0 || c.val == 0x1680 || (0x2000 ≤ c.val && c.val ≤ 0x200A) ||
  c.val == 0x2028 || c.val == 0x2029 || c.val == 0x202F || c.val == 0x205F ||
  c.val == 0x3000 || c.val == 0xFEFF

/-- Rule 1 scanner state machine: the Nat counts the consecutive newlines
seen so far in the current run; the first two are kept, the rest dropped.
This is the global replace of 3-or-more newlines by exactly two. -/
def cnAux : Nat → List Char → List Char
  | _, [] => []
  | k, c :: t =>
    if c = '\n' then (if k < 2 then c :: cnAux (k + 1) t else cnAux (k + 1) t)
    else c :: cnAux 0 t

/-- Rule 1 of formatSummaryText: text.replace of 3-or-more newlines,
globally, by two newlines (part_000 line 69). -/
def collapseNl (l : List Char) : List Char := cnAux 0 l

/-- The bullet character class of rule 2: dash, asterisk or bullet. -/
def isBullet (c : Char) : Bool := c == '-' || c == '*' || c == '•'

/-- The ECMAScript LineTerminator set: a multiline caret asserts at the
start of the input and right after any of these four characters. -/
def isLineTerm (c : Char) : Bool :=
  c == '\n' || c == '\r' || c.val == 0x2028 || c.val == 0x2029

/-- No character of the list is a line terminator. -/
def noLT (l : List Char) : Bool := l.all (fun c => !isLineTerm c)

/-- Rule 2 scanner: multiline-anchored bullet normalization. skipping is
true while the greedy whitespace after a matched bullet is being consumed;
flag records whether the previous character of the original text was a
line terminator (the multiline line-start condition). -/
def bnAux : Bool → Bool → List Char → List Char
  | _, _, [] => []
  | skipping, flag, c :: t =>
    if skipping && isWs c then bnAux true (isLineTerm c) t
    else if flag && isBullet c then
      '•' :: ' ' :: bnAux true false t
    else c :: bnAux false (isLineTerm c) t

/-- Rule 2 of formatSummaryText: at each line start, a dash, asterisk or
bullet together with the following run of whitespace is replaced by a
bullet and one space (part_000 line 72). -/
def bulletNorm (l : List Char) : List Char := bnAux false true l

def hashRun : List Char → Nat
  | [] => 0
  | c :: t => if c = '#' then hashRun t + 1 else 0

def wsHead : List Char → Bool
  | c :: _ => isWs c
  | [] => false

/-- Match test for rule 3 at the position after the captured non-newline
character: a newline, then one to six hashes, then a whitespace character.
A run of seven or more hashes never matches, because backtracking the
greedy hash quantifier still faces a hash where whitespace is required. -/
def hbMatch : List Char → Bool
  | [] => false
  | c :: u => c == '\n' && decide (1 ≤ hashRun u) && decide (hashRun u ≤ 6) && wsHead (List.drop (hashRun u) u)

/-- Rule 3 scanner: on a match the extra newline is emitted after the
captured character, and the Nat counts the remaining characters of the
match that are copied verbatim (the original newline, the hashes, and the
whitespace character of the second capture group). -/
def hbAux : Nat → List Char → List Char
  | _ + 1, [] => []
  | k + 1, c :: t => c :: hbAux k t
  | 0, [] => []
  | 0, c :: t =>
    if c != '\n' && hbMatch t then c :: '\n' :: hbAux (hashRun (List.drop 1 t) + 2) t
    else c :: hbAux 0 t

/-- Rule 3 of formatSummaryText: a blank line is forced before a heading
marker that follows a non-newline character (part_000 line 75). -/
def headingBefore (l : List Char) : List Char := hbAux 0 l

def nlnlHead : List Char → Bool
  | a :: b :: _ => a == '\n' && b == '\n'
  | _ => false

/-- The greedy non-newline run after the hashes and their whitespace
character, at a candidate rule 4 match. -/
def haBody (l : List Char) : List Char :=
  List.takeWhile (fun c => c != '\n') (List.drop (hashRun l + 1) l)

/-- What follows the greedy run: the text inspected by the negative
lookahead. -/
def haAfter (l : List Char) : List Char :=
  List.drop (hashRun l + 1 + (haBody l).length) l

/-- Length of the rule 4 match at a line start, or 0 when there is none.
The pattern is one to six hashes, a whitespace character, then a greedy
run of non-newline characters, under a negative lookahead for two
newlines. When the full greedy run is followed by two newlines the greedy
quantifier backs off one character, which always satisfies the lookahead;
a run of length one then has nothing to back off to and the match fails. -/
def haMatchLen (l : List Char) : Nat :=
  if decide (1 ≤ hashRun l) && decide (hashRun l ≤ 6) && wsHead (List.drop (hashRun l) l) then
    if (haBody l).length == 0 then 0
    else if nlnlHead (haAfter l) then
      (if 2 ≤ (haBody l).length then hashRun l + (haBody l).length else 0)
    else hashRun l + 1 + (haBody l).length
  else 0

/-- Rule 4 scanner: some k means k characters of the current match remain
to be copied, after which the two inserted newlines are emitted; the Bool
is the multiline line-start flag. A match is at least two characters
long, so the pending count starts at one or more and the some 0 state is
unreachable. Scanning resumes after the last copied character of the
match, so the line-start flag there is whether that character is a line
terminator (the greedy run excludes newlines but not the other three). -/
def haAux : Option Nat → Bool → List Char → List Char
  | some 0, _, l => l
  | some 1, _, [] => []
  | some 1, _, c :: t => c :: '\n' :: '\n' :: haAux none (isLineTerm c) t
  | some (_ + 2), _, [] => []
  | some (k + 2), _, c :: t => c :: haAux (some (k + 1)) false t
  | none, _, [] => []
  | none, ls, c :: t =>
    if ls then
      (if 2 ≤ haMatchLen (c :: t) then c :: haAux (some (haMatchLen (c :: t) - 1)) false t
       else c :: haAux none (isLineTerm c) t)
    else c :: haAux none (isLineTerm c) t

/-- Rule 4 of formatSummaryText: a heading line not already followed by a
blank line has two newlines inserted after it (part_000 line 76). -/
def headingAfter (l : List Char) : List Char := haAux none true l

/-- Rule 5 of formatSummaryText: a blank line is inserted between a
non-newline character and a following line that does not begin with a
hash, whitespace, bullet or dash (part_000 line 79). -/
def psAux : List Char → List Char
  | [] => []
  | [x] => [x]
  | [x, y] => [x, y]
  | x :: y :: z :: rest =>
    if x != '\n' && y == '\n' && !(z == '#' || isWs z || z == '•' || z == '-') then
      x :: '\n' :: '\n' :: z :: psAux rest
    else x :: psAux (y :: z :: rest)

def paraSpace (l : List Char) : List Char := psAux l

/-- Rule 6 scanner: the Bool records whether the previous character was
whitespace. A whitespace character opening a run of length two or more is
replaced by one space and the rest of the run is dropped; a lone
whitespace character is kept as it is. -/
def cwAux : Bool → List Char → List Char
  | _, [] => []
  | prevWs, c :: t =>
    if isWs c then
      (if prevWs then cwAux true t
       else (if wsHead t then ' ' else c) :: cwAux true t)
    else c :: cwAux false t

/-- Rule 6 of formatSummaryText: every run of two or more whitespace
characters, newlines included, collapses to a single space
(part_000 line 82). -/
def collapseWs (l : List Char) : List Char := cwAux false l

/-- JavaScript String.prototype.trim: whitespace stripped from both
ends. -/
def jsTrim (l : List Char) : List Char :=
  ((l.dropWhile isWs).reverse.dropWhile isWs).reverse

/-- formatSummaryText (part_000 lines 65-85): the six rewrites applied in
their fixed order, then trim; a falsy input returns the empty string. -/
def formatSummaryText (l : List Char) : List Char :=
  if l = [] then []
  else jsTrim (collapseWs (paraSpace (headingAfter (headingBefore (bulletNorm (collapseNl l))))))

/-! ## Notion block model (part_001) -/

structure RichTextRun where
  plain_text : List Char
deriving DecidableEq

def joinPlain : List RichTextRun → List Char
  | [] => []
  | r :: t => r.plain_text ++ joinPlain t

/-- The kind tag and kind-specific payload of a Notion block, as consumed
by processBlock (part_001 lines 193-268). Optional fields model absent
JavaScript properties; an empty list stands for an empty string, which is
falsy like an absent one where the code tests truthiness. -/
inductive BlockData where
  | paragraph (rich_text : List RichTextRun)
  | heading_1 (rich_text : List RichTextRun)
  | heading_2 (rich_text : List RichTextRun)
  | heading_3 (rich_text : List RichTextRun)
  | bulleted_list_item (rich_text : List RichTextRun)
  | numbered_list_item (rich_text : List RichTextRun)
  | to_do (rich_text : List RichTextRun) (checked : Bool)
  | toggle (rich_text : List RichTextRun)
  | child_page (title : Option (List Char))
  | quote (rich_text : List RichTextRun)
  | code (rich_text : List RichTextRun) (language : Option (List Char))
  | divider
  | callout (rich_text : List RichTextRun) (icon_emoji : Option (List Char))
  | table
  | column_list
  | other (typeName : List Char)

/-- Outcome of the nested-children fetch issued for a block whose
has_children flag is set (part_001 lines 166-186): a 2xx response with
the children, a non-2xx response, or a thrown network error. -/
inductive FetchKind where
  | ok | httpError | thrown

mutual
inductive Block where
  | mk (data : BlockData) (has_children : Bool) (fetch : FetchKind) (children : BlockList)
inductive BlockList where
  | nilB
  | consB (b : Block) (t : BlockList)
end

def appendB : BlockList → BlockList → BlockList
  | .nilB, ys => ys
  | .consB b t, ys => .consB b (appendB t ys)

def indentC (level : Nat) : List Char := List.replicate (2 * level) ' '

/-- processBlock (part_001 lines 193-268): one block mapped to its text
fragment at the given nesting level. Kinds whose guard on a nonempty
rich-text array fails fall through the switch and return the empty
string; paragraph, child_page, divider, table, column_list and the
default arm always emit. -/
def processBlock (d : BlockData) (level : Nat) : List Char :=
  let indent := indentC level
  match d with
  | .paragraph rt =>
    if rt ≠ [] then indent ++ joinPlain rt ++ str "\n\n" else indent ++ str "\n\n"
  | .heading_1 rt => if rt ≠ [] then indent ++ str "# " ++ joinPlain rt ++ str "\n\n" else []
  | .heading_2 rt => if rt ≠ [] then indent ++ str "## " ++ joinPlain rt ++ str "\n\n" else []
  | .heading_3 rt => if rt ≠ [] then indent ++ str "### " ++ joinPlain rt ++ str "\n\n" else []
  | .bulleted_list_item rt => if rt ≠ [] then indent ++ str "- " ++ joinPlain rt ++ str "\n" else []
  | .numbered_list_item rt => if rt ≠ [] then indent ++ str "1. " ++ joinPlain rt ++ str "\n" else []
  | .to_do rt checked =>
    if rt ≠ [] then
      indent ++ str "- " ++ (if checked then str "[x]" else str "[ ]") ++ str " " ++ joinPlain rt ++ str "\n"
    else []
  | .toggle rt => if rt ≠ [] then indent ++ str "**Toggle: " ++ joinPlain rt ++ str "**\n\n" else []
  | .child_page title =>
    indent ++ str "**Child Page: " ++
      (match title with
       | some t => if t = [] then str "Untitled" else t
       | none => str "Untitled") ++ str "**\n\n"
  | .quote rt => if rt ≠ [] then indent ++ str "> " ++ joinPlain rt ++ str "\n\n" else []
  | .code rt language =>
    if rt ≠ [] then
      indent ++ str "```" ++ (match language with | some l => l | none => []) ++ str "\n" ++
        joinPlain rt ++ str "\n```\n\n"
    else []
  | .divider => indent ++ str "---\n\n"
  | .callout rt icon_emoji =>
    if rt ≠ [] then
      indent ++ str "> " ++
        (match icon_emoji with
         | some e => if e = [] then [] else e ++ str " "
         | none => []) ++ str "**Callout:** " ++ joinPlain rt ++ str "\n\n"
    else []
  | .table => indent ++ str "[Table content not fully supported]\n\n"
  | .column_list => indent ++ str "[Column layout not fully supported]\n\n"
  | .other typeName => indent ++ str "[" ++ typeName ++ str " block type not supported]\n\n"

mutual
/-- One block of processBlocks (part_001 lines 159-190): the fragment of
the block itself, then, when has_children is set, the recursively
converted children on a 2xx fetch, nothing on a non-2xx fetch, and the
error placeholder when the fetch throws. -/
def processBlockFull : Block → Nat → List Char
  | .mk d hc fk cs, level =>
    processBlock d level ++
      (if hc then
        match fk with
        | .ok => processBlocksList cs (level + 1)
        | .httpError => []
        | .thrown => str "\n\n*[Error loading nested content]*\n\n"
      else [])
/-- processBlocks over the block list, in document order. -/
def processBlocksList : BlockList → Nat → List Char
  | .nilB, _ => []
  | .consB b rest, level => processBlockFull b level ++ processBlocksList rest level
end

/-! ## Title resolution (part_001 lines 95-151) -/

/-- A page property as read by the title logic: its type tag, and its
title payload when that is present and an array (none otherwise). -/
structure PropVal where
  type : List Char
  title : Option (List RichTextRun)
deriving DecidableEq

def lookupProp : List (List Char × PropVal) → List Char → Option PropVal
  | [], _ => none
  | (k, v) :: t, key => if k = key then some v else lookupProp t key

/-- Third property tier: the first property of any name whose type tag is
title and whose title array is nonempty (part_001 lines 119-127). -/
def propTitle3 : List (List Char × PropVal) → List Char
  | [] => []
  | (_, p) :: t =>
    match p.title with
    | some (r :: rs) => if p.type = str "title" then joinPlain (r :: rs) else propTitle3 t
    | _ => propTitle3 t

/-- Second property tier: the property literally named Name
(part_001 lines 108-116), else the third tier. -/
def propTitle2 (props : List (List Char × PropVal)) : List Char :=
  match lookupProp props (str "Name") with
  | some p =>
    match p.title with
    | some (r :: rs) => joinPlain (r :: rs)
    | _ => propTitle3 props
  | none => propTitle3 props

/-- First property tier: the property named title
(part_001 lines 98-106), else the later tiers. Note that the first two
tiers do not inspect the type tag. -/
def propTitle (props : List (List Char × PropVal)) : List Char :=
  match lookupProp props (str "title") with
  | some p =>
    match p.title with
    | some (r :: rs) => joinPlain (r :: rs)
    | _ => propTitle2 props
  | none => propTitle2 props

/-- Truthiness of the first rich-text run, the guard used by the block
fallback loop (part_001 lines 134 and 138). -/
def rtHeadTruthy : List RichTextRun → Bool
  | r :: _ => r.plain_text != []
  | [] => false

/-- The block fallback loop (part_001 lines 133-145): one pass over the
blocks in document order, taking whichever qualifying heading_1 or
paragraph comes first; a paragraph text longer than 40 characters is cut
to 40 plus an ellipsis. -/
def blockTitle : BlockList → List Char
  | .nilB => []
  | .consB (.mk d _ _ _) rest =>
    match d with
    | .heading_1 rt => if rtHeadTruthy rt then joinPlain rt else blockTitle rest
    | .paragraph rt =>
      if rtHeadTruthy rt then
        (if 40 < (joinPlain rt).length then (joinPlain rt).take 40 ++ str "..." else joinPlain rt)
      else blockTitle rest
    | _ => blockTitle rest

/-- Full title resolution (part_001 lines 95-151): property tiers, then
the block fallback, then the generated date fallback. -/
def resolveTitle (props : List (List Char × PropVal)) (blocks : BlockList)
    (today : List Char) : List Char :=
  let t1 := propTitle props
  if t1 = [] then
    let t2 := blockTitle blocks
    if t2 = [] then str "Notion Page (" ++ today ++ str ")" else t2
  else t1

/-! ## The request handler (part_001 lines 9-357) -/

structure PageData where
  properties : List (List Char × PropVal)
  url : List Char
deriving DecidableEq

structure Request where
  userId : Option (List Char)
  pageId : Option (List Char)
  projectId : Option (List Char)

/-- JavaScript truthiness of a request field: absent and empty are both
falsy. -/
def truthy : Option (List Char) → Bool
  | none => false
  | some s => s != []

/-- Outcome of one of the top-level Notion fetches: a 2xx response with
its parsed payload, or a non-2xx response with the optional message field
of its JSON error body. -/
inductive FetchResp (α : Type) where
  | ok (a : α)
  | err (message : Option (List Char))

/-- The collaborator responses consumed by one run of the handler; the
nested-children outcomes live inside the BlockList itself. -/
structure Env where
  memberData : Bool
  memberErr : Bool
  ownerId : Option (List Char)
  ownerErr : Bool
  connErr : Bool
  connToken : Option (List Char)
  pageResp : FetchResp PageData
  blocksResp : FetchResp BlockList
  insertErr : Option (List Char)
  today : List Char

structure SourceDoc where
  type : List Char
  url : List Char
  name : List Char
  id : List Char
deriving DecidableEq

structure Note where
  title : List Char
  content : List Char
  project_id : List Char
  user_id : List Char
  tags : List (List Char)
  source_document : SourceDoc
deriving DecidableEq

inductive RespBody where
  | success (note : Note) (message : List Char)
  | failure (error : List Char)
deriving DecidableEq

structure Response where
  status : Nat
  body : RespBody
deriving DecidableEq

/-- Externally visible calls made by the handler, in order: the two
access-check queries, the connection lookup, the two top-level Notion
fetches, the nested-children fetches, and the note insert. -/
inductive Act where
  | rpcIsMember | queryOwner | queryConnection | fetchPage | fetchBlocks | fetchChildren | insertNote
deriving DecidableEq

mutual
/-- Nested-children fetch attempts issued while converting one block:
one per block whose has_children flag is set, recursing into the children
only when that fetch succeeded. -/
def childActs : Block → List Act
  | .mk _ hc fk cs =>
    if hc then
      Act.fetchChildren ::
        (match fk with
         | .ok => childActsL cs
         | .httpError => []
         | .thrown => [])
    else []
def childActsL : BlockList → List Act
  | .nilB => []
  | .consB b rest => childActs b ++ childActsL rest
end

/-- The or-Unknown-error default applied to the message field of a Notion
error body (part_001 lines 70 and 88): absent and empty are falsy. -/
def errMsgOr : Option (List Char) → List Char
  | some m => if m = [] then str "Unknown error" else m
  | none => str "Unknown error"

/-- The notion-import-page handler (part_001 lines 15-356) as a function
of the request and the collaborator responses, returning the response
envelope together with the trace of external calls it performed. Every
thrown error is caught at the top and becomes the 400 failure envelope. -/
def handler (req : Request) (env : Env) : Response × List Act :=
  if !(truthy req.userId && truthy req.pageId && truthy req.projectId) then
    (⟨400, .failure (str "Missing required parameters: userId, pageId, and projectId")⟩, [])
  else
    let u := req.userId.getD []
    let pid := req.pageId.getD []
    let prj := req.projectId.getD []
    if (env.memberErr && env.ownerErr) || (!env.memberData && !(env.ownerId == some u)) then
      (⟨400, .failure (str "You don't have access to this project")⟩,
        [Act.rpcIsMember, Act.queryOwner])
    else if env.connErr || env.connToken.isNone then
      (⟨400, .failure (str "Notion connection not found")⟩,
        [Act.rpcIsMember, Act.queryOwner, Act.queryConnection])
    else
      match env.pageResp with
      | .err m =>
        (⟨400, .failure (str "Notion API error: " ++ errMsgOr m)⟩,
          [Act.rpcIsMember, Act.queryOwner, Act.queryConnection, Act.fetchPage])
      | .ok pageData =>
        match env.blocksResp with
        | .err m =>
          (⟨400, .failure (str "Notion API error: " ++ errMsgOr m)⟩,
            [Act.rpcIsMember, Act.queryOwner, Act.queryConnection,
              Act.fetchPage, Act.fetchBlocks])
        | .ok blocks =>
          let pageTitle := resolveTitle pageData.properties blocks env.today
          let content := jsTrim (processBlocksList blocks 0)
          let acts := [Act.rpcIsMember, Act.queryOwner, Act.queryConnection,
            Act.fetchPage, Act.fetchBlocks] ++ childActsL blocks ++ [Act.insertNote]
          match env.insertErr with
          | some m => (⟨400, .failure (str "Failed to create note: " ++ m)⟩, acts)
          | none =>
            (⟨200, .success
              { title := pageTitle, content := content, project_id := prj, user_id := u,
                tags := [str "notion", str "imported", str "notion-import"],
                source_document :=
                  { type := str "notion", url := pageData.url, name := pageTitle, id := pid } }
              (str "Successfully imported \"" ++ pageTitle ++ str "\" from Notion")⟩, acts)

/-- An environment in which everything outside the block tree succeeds:
the user is a member, the connection exists, both top-level fetches are
2xx, and the insert succeeds. -/
def okEnv (pd : PageData) (blocks : BlockList) (today : List Char) : Env :=
  { memberData := true, memberErr := false, ownerId := none, ownerErr := false,
    connErr := false, connToken := some (str "tok"),
    pageResp := .ok pd, blocksResp := .ok blocks, insertErr := none, today := today }

/-! ## Auxiliary predicates used in the theorems -/

/-- Boolean prefix test on character lists. -/
def isPre : List Char → List Char → Bool
  | [], _ => true
  | _ :: _, [] => false
  | a :: p, b :: l => a == b && isPre p l

/-- Boolean contiguous-substring test on character lists. -/
def hasSeg : List Char → List Char → Bool
  | p, [] => isPre p []
  | p, c :: t => isPre p (c :: t) || hasSeg p t

/-- p occurs contiguously inside l. -/
def SegIn (p l : List Char) : Prop := ∃ u v, l = u ++ p ++ v

/-- No two adjacent characters are both whitespace. -/
def noWsPair : List Char → Bool
  | a :: b :: t => !(isWs a && isWs b) && noWsPair (b :: t)
  | _ => true

/-- No three adjacent newlines. -/
def noTripleNl : List Char → Bool
  | a :: b :: c :: t => !(a == '\n' && b == '\n' && c == '\n') && noTripleNl (b :: c :: t)
  | _ => true

/-- Length of the leading newline run. -/
def leadingNl : List Char → Nat
  | [] => 0
  | c :: t => if c = '\n' then leadingNl t + 1 else 0

/-- True when the list is empty or starts with whitespace; used to state
that a pattern begins and ends with visible characters. -/
def headWsOrNil : List Char → Bool
  | [] => true
  | c :: _ => isWs c

/-- The text the block fallback loop would take from one block, if any:
a heading_1 or paragraph whose first rich-text run is truthy, with the
paragraph truncation applied. -/
def blockHit : Block → Option (List Char)
  | .mk d _ _ _ =>
    match d with
    | .heading_1 rt => if rtHeadTruthy rt then some (joinPlain rt) else none
    | .paragraph rt =>
      if rtHeadTruthy rt then
        some (if 40 < (joinPlain rt).length then (joinPlain rt).take 40 ++ str "..." else joinPlain rt)
      else none
    | _ => none

/-- No block of the list is taken by the block fallback loop. -/
def noHitAll : BlockList → Bool
  | .nilB => true
  | .consB b t => (blockHit b).isNone && noHitAll t

/-- Status code of a handler result. -/
def respStatus (r : Response × List Act) : Nat := r.1.status

/-- Whether a handler result is the success envelope. -/
def isSuccess : Response × List Act → Bool
  | (⟨_, .success _ _⟩, _) => true
  | _ => false

/-- Content of the note in a success envelope, empty otherwise. -/
def noteContent : Response × List Act → List Char
  | (⟨_, .success n _⟩, _) => n.content
  | _ => []

/-- Title of the note in a success envelope, empty otherwise. -/
def noteTitle : Response × List Act → List Char
  | (⟨_, .success n _⟩, _) => n.title
  | _ => []

/-- The end-to-end scenario of the spec: page properties with a Name
title property reading Q3 Plan. -/
def scenarioProps : List (List Char × PropVal) :=
  [(str "Name", ⟨str "title", some [⟨str "Q3 Plan"⟩]⟩)]

/-- The end-to-end scenario blocks: heading_1 Goals, then two bulleted
list items. -/
def scenarioBlocks : BlockList :=
  .consB (.mk (.heading_1 [⟨str "Goals"⟩]) false .ok .nilB)
    (.consB (.mk (.bulleted_list_item [⟨str "Grow 10%"⟩]) false .ok .nilB)
      (.consB (.mk (.bulleted_list_item [⟨str "Ship v2"⟩]) false .ok .nilB) .nilB))

def scenarioReq : Request := ⟨some (str "user-1"), some (str "page-1"), some (str "proj-1")⟩

def scenarioEnv : Env :=
  okEnv ⟨scenarioProps, str "https://notion.example/p"⟩ scenarioBlocks (str "1/1/2026")

/-- A single paragraph block whose nested-children fetch answered with a
non-2xx status. -/
def httpErrBlocks : BlockList :=
  .consB (.mk (.paragraph [⟨str "Hi"⟩]) true .httpError .nilB) .nilB

/-! ## Helper lemmas -/

theorem isPre_self_append : ∀ (p v : List Char), isPre p (p ++ v) = true
  | [], _ => rfl
  | a :: p, v => by simp [isPre, isPre_self_append p v]

theorem hasSeg_of_append : ∀ (u p v : List Char), hasSeg p (u ++ (p ++ v)) = true
  | [], p, v => by
    cases p with
    | nil => cases v with
      | nil => rfl
      | cons c t => simp [hasSeg, isPre]
    | cons a p' =>
      show hasSeg (a :: p') (a :: (p' ++ v)) = true
      have h1 := isPre_self_append (a :: p') v
      rw [List.cons_append] at h1
      simp [hasSeg, h1]
  | c :: u, p, v => by simp [hasSeg, hasSeg_of_append u p v]

theorem processBlocksList_append : ∀ (xs ys : BlockList) (lvl : Nat),
    processBlocksList (appendB xs ys) lvl = processBlocksList xs lvl ++ processBlocksList ys lvl
  | .nilB, ys, lvl => by simp [appendB, processBlocksList]
  | .consB b t, ys, lvl => by
    rw [appendB, processBlocksList, processBlocksList,
      processBlocksList_append t ys lvl, List.append_assoc]

theorem blockTitle_cons_some (b : Block) (rest : BlockList) (ttl : List Char)
    (h : blockHit b = some ttl) : blockTitle (.consB b rest) = ttl := by
  obtain ⟨d, hc, fk, cs⟩ := b
  cases d with
  | heading_1 rt =>
    by_cases hg : rtHeadTruthy rt = true
    · simp [blockHit, hg] at h
      simp [blockTitle, hg, h]
    · simp [blockHit, hg] at h
  | paragraph rt =>
    by_cases hg : rtHeadTruthy rt = true
    · simp [blockHit, hg] at h
      simp [blockTitle, hg, h]
    · simp [blockHit, hg] at h
  | _ => simp [blockHit] at h

theorem blockTitle_cons_none (b : Block) (rest : BlockList)
    (h : blockHit b = none) : blockTitle (.consB b rest) = blockTitle rest := by
  obtain ⟨d, hc, fk, cs⟩ := b
  cases d with
  | heading_1 rt =>
    by_cases hg : rtHeadTruthy rt = true
    · simp [blockHit, hg] at h
    · simp [blockTitle, hg]
  | paragraph rt =>
    by_cases hg : rtHeadTruthy rt = true
    · simp [blockHit, hg] at h
    · simp [blockTitle, hg]
  | _ => simp [blockTitle]

/-! ## C1 -/

/-- C1 counterexample: on the end-to-end scenario the persisted content is
the trimmed converter output with dash bullets, which differs from the
claimed bullet-normalized body; moreover even applying formatSummaryText
to the assembled document would not produce the claimed body, because its
later rewrites destroy the blank line and mangle the heading. -/
theorem c1_counterexample :
    noteContent (handler scenarioReq scenarioEnv) = str "# Goals\n\n- Grow 10%\n- Ship v2" ∧
    ((str "# Goals\n\n- Grow 10%\n- Ship v2" : List Char) == str "# Goals\n\n• Grow 10%\n• Ship v2") = false ∧
    formatSummaryText (str "# Goals\n\n- Grow 10%\n- Ship v2") = str "# Goal s • Grow 10%\n• Ship v2" := by
  decide

/-- C1 amended: the import pipeline never applies the post-processing
pass; the persisted note holds the trimmed converter output as is. On the
scenario page the import succeeds with title Q3 Plan and content
"# Goals\n\n- Grow 10%\n- Ship v2", the bullets staying dashes. -/
theorem c1_amended :
    respStatus (handler scenarioReq scenarioEnv) = 200 ∧
    noteTitle (handler scenarioReq scenarioEnv) = str "Q3 Plan" ∧
    noteContent (handler scenarioReq scenarioEnv) = jsTrim (processBlocksList scenarioBlocks 0) ∧
    noteContent (handler scenarioReq scenarioEnv) = str "# Goals\n\n- Grow 10%\n- Ship v2" := by
  decide

/-! ## C2 -/

/-- C2 counterexample: with no title property, a page whose first block is
a paragraph followed by a heading_1 resolves to the paragraph text, not
the heading text: the loop takes the first text-bearing block in document
order, so tier 4 is not preferred over tier 5. -/
theorem c2_counterexample :
    resolveTitle [] (.consB (.mk (.paragraph [⟨str "Intro"⟩]) false .ok .nilB)
      (.consB (.mk (.heading_1 [⟨str "Heading"⟩]) false .ok .nilB) .nilB)) (str "1/1/2026") = str "Intro" ∧
    ((str "Intro" : List Char) == str "Heading") = false := by
  decide

theorem blockTitle_first_hit : ∀ (pre : BlockList) (b : Block) (rest : BlockList)
    (ttl : List Char), noHitAll pre = true → blockHit b = some ttl →
    blockTitle (appendB pre (.consB b rest)) = ttl
  | .nilB, b, rest, ttl, _, hb => by
    rw [appendB]; exact blockTitle_cons_some b rest ttl hb
  | .consB a t, b, rest, ttl, hpre, hb => by
    rw [appendB]
    simp only [noHitAll, Bool.and_eq_true, Option.isNone_iff_eq_none] at hpre
    rw [blockTitle_cons_none a _ hpre.1]
    exact blockTitle_first_hit t b rest ttl hpre.2 hb

/-- C2 amended: when no property tier yields text, the resolved title is
the text of the first block in document order that is either a heading_1
with a truthy first run or a paragraph with a truthy first run (paragraph
text truncated to 40 characters plus ellipsis); a heading_1 is preferred
over a paragraph only when it occurs earlier. -/
theorem c2_amended (props : List (List Char × PropVal)) (today : List Char)
    (pre : BlockList) (b : Block) (rest : BlockList) (ttl : List Char)
    (hp : propTitle props = []) (hpre : noHitAll pre = true)
    (hb : blockHit b = some ttl) (htl : ttl ≠ []) :
    resolveTitle props (appendB pre (.consB b rest)) today = ttl := by
  have hbt := blockTitle_first_hit pre b rest ttl hpre hb
  simp [resolveTitle, hp, hbt, htl]

/-- C2 amended, witness: a divider block is skipped and the following
paragraph supplies the title. -/
theorem c2_amended_witness :
    resolveTitle [] (appendB (.consB (.mk .divider false .ok .nilB) .nilB)
      (.consB (.mk (.paragraph [⟨str "Intro"⟩]) false .ok .nilB) .nilB))
      (str "1/1/2026") = str "Intro" :=
  c2_amended [] (str "1/1/2026") _ _ _ _ rfl (by decide) (by decide) (by decide)

/-! ## C6 -/

/-- C6: a request missing userId, pageId or projectId gets the 400
failure envelope with the exact missing-parameters message, and the
handler performs no external call at all, in particular no Notion fetch
and no note insert. -/
theorem c6_missing_params (req : Request) (env : Env)
    (h : req.userId = none ∨ req.pageId = none ∨ req.projectId = none) :
    handler req env =
      (⟨400, .failure (str "Missing required parameters: userId, pageId, and projectId")⟩, []) := by
  have hx : (truthy req.userId && truthy req.pageId && truthy req.projectId) = false := by
    rcases h with h | h | h <;> simp [h, truthy]
  simp [handler, hx]

/-- C6 witness at a concrete request missing userId. -/
theorem c6_missing_params_witness :
    handler ⟨none, some (str "page-1"), some (str "proj-1")⟩ scenarioEnv =
      (⟨400, .failure (str "Missing required parameters: userId, pageId, and projectId")⟩, []) :=
  c6_missing_params _ _ (Or.inl rfl)

/-! ## C7 -/

/-- C7: title resolution never returns the empty string, and when neither
the property tiers nor the block fallback yield text it returns exactly
the generated date fallback. -/
theorem c7_title_never_empty (props : List (List Char × PropVal)) (blocks : BlockList)
    (today : List Char) :
    0 < (resolveTitle props blocks today).length ∧
    (propTitle props = [] → blockTitle blocks = [] →
      resolveTitle props blocks today = str "Notion Page (" ++ today ++ str ")") := by
  constructor
  · unfold resolveTitle
    by_cases h1 : propTitle props = []
    · by_cases h2 : blockTitle blocks = []
      · simp [h1, h2, str, List.length_append]
      · simp only [h1, if_pos]
        simp [h2, List.length_pos]
    · simp only [if_neg h1]
      exact List.length_pos.mpr h1
  · intro h1 h2
    simp [resolveTitle, h1, h2]

/-- C7 witness: empty properties and blocks give the date fallback. -/
theorem c7_title_never_empty_witness :
    resolveTitle [] BlockList.nilB (str "1/2/2026") =
      str "Notion Page (" ++ str "1/2/2026" ++ str ")" :=
  (c7_title_never_empty [] .nilB (str "1/2/2026")).2 rfl rfl

/-! ## C8 -/

/-- C8 counterexample: a to_do block with an empty rich-text array falls
through the switch and emits the empty fragment, which contains neither
checkbox marker, although checked is true. -/
theorem c8_counterexample :
    processBlock (.to_do [] true) 0 = [] ∧
    hasSeg (str "[x]") (processBlock (.to_do [] true) 0) = false := by
  decide

/-- C8 amended: for every to_do block with a nonempty rich-text array the
fragment contains the checked marker when checked is true and the
unchecked marker when checked is false. -/
theorem c8_amended (rt : List RichTextRun) (level : Nat) (h : rt ≠ []) :
    hasSeg (str "[x]") (processBlock (.to_do rt true) level) = true ∧
    hasSeg (str "[ ]") (processBlock (.to_do rt false) level) = true := by
  constructor
  · have h1 := hasSeg_of_append (indentC level ++ str "- ") (str "[x]")
      (str " " ++ (joinPlain rt ++ str "\n"))
    simpa [processBlock, h, List.append_assoc] using h1
  · have h1 := hasSeg_of_append (indentC level ++ str "- ") (str "[ ]")
      (str " " ++ (joinPlain rt ++ str "\n"))
    simpa [processBlock, h, List.append_assoc] using h1

/-- C8 amended, witness at a concrete to_do block. -/
theorem c8_amended_witness :
    hasSeg (str "[x]") (processBlock (.to_do [⟨str "Buy milk"⟩] true) 0) = true ∧
    hasSeg (str "[ ]") (processBlock (.to_do [⟨str "Buy milk"⟩] false) 0) = true :=
  c8_amended _ _ (by decide)

/-! ## C9 -/

/-- C9: a well-formed request whose user is neither a member nor the
owner of the project fails with the 400 access-denied envelope right
after the two access-check queries: no Notion fetch and no note insert
appear in the trace. -/
theorem c9_access_denied (u p pr : List Char) (env : Env)
    (hu : u ≠ []) (hp : p ≠ []) (hpr : pr ≠ [])
    (hm : env.memberData = false) (ho : env.ownerId ≠ some u) :
    handler ⟨some u, some p, some pr⟩ env =
      (⟨400, .failure (str "You don't have access to this project")⟩,
        [Act.rpcIsMember, Act.queryOwner]) := by
  have h1 : (truthy (some u) && truthy (some p) && truthy (some pr)) = true := by
    simp [truthy, hu, hp, hpr]
  have h2 : (env.ownerId == some u) = false := by
    simp [ho]
  simp [handler, h1, h2, hm]

/-- C9 witness at a concrete request and environment. -/
theorem c9_access_denied_witness :
    handler ⟨some (str "user-1"), some (str "page-1"), some (str "proj-1")⟩
      ⟨false, false, some (str "someone-else"), false, false, some (str "tok"),
        .ok ⟨[], []⟩, .ok .nilB, none, str "1/1/2026"⟩ =
      (⟨400, .failure (str "You don't have access to this project")⟩,
        [Act.rpcIsMember, Act.queryOwner]) :=
  c9_access_denied _ _ _ _ (by decide) (by decide) (by decide) rfl (by decide)

/-! ## C10 -/

/-- C10: a child_page block with an absent or empty title still emits a
fragment, namely the indent, the bold Child Page: Untitled marker and a
blank line; it does not fall through to the empty fragment. -/
theorem c10_child_page_untitled (level : Nat) :
    processBlock (.child_page none) level = indentC level ++ str "**Child Page: Untitled**\n\n" ∧
    processBlock (.child_page (some [])) level = indentC level ++ str "**Child Page: Untitled**\n\n" ∧
    0 < (processBlock (.child_page none) level).length := by
  have hcat : (str "**Child Page: " ++ (str "Untitled" ++ str "**\n\n") : List Char) =
      str "**Child Page: Untitled**\n\n" := by decide
  have h1 : processBlock (.child_page none) level =
      indentC level ++ str "**Child Page: Untitled**\n\n" := by
    simp [processBlock, List.append_assoc, hcat]
  have h2 : processBlock (.child_page (some [])) level =
      indentC level ++ str "**Child Page: Untitled**\n\n" := by
    simp [processBlock, List.append_assoc, hcat]
  refine ⟨h1, h2, ?_⟩
  rw [h1, List.length_append]
  have h3 : 0 < (str "**Child Page: Untitled**\n\n").length := by decide
  omega

/-! ## C3 -/

theorem handler_okEnv (u p pr : List Char) (hu : u ≠ []) (hp : p ≠ []) (hpr : pr ≠ [])
    (pd : PageData) (blocks : BlockList) (today : List Char) :
    handler ⟨some u, some p, some pr⟩ (okEnv pd blocks today) =
      (⟨200,
        .success
          { title := resolveTitle pd.properties blocks today,
            content := jsTrim (processBlocksList blocks 0),
            project_id := pr,
            user_id := u,
            tags := [str "notion", str "imported", str "notion-import"],
            source_document :=
              { type := str "notion",
                url := pd.url,
                name := resolveTitle pd.properties blocks today,
                id := p } }
          (str "Successfully imported \"" ++ resolveTitle pd.properties blocks today ++
            str "\" from Notion")⟩,
       [Act.rpcIsMember, Act.queryOwner, Act.queryConnection, Act.fetchPage, Act.fetchBlocks] ++
         childActsL blocks ++ [Act.insertNote]) := by
  simp [handler, okEnv, truthy, hu, hp, hpr]

theorem segIn_dropWhile (P : List Char) (hp : headWsOrNil P = false) :
    ∀ (l : List Char), SegIn P l → SegIn P (l.dropWhile isWs)
  | [], h => by
    obtain ⟨u, v, hl⟩ := h
    have hu : u = [] := by
      cases u with
      | nil => rfl
      | cons a u' => simp at hl
    subst hu
    cases P with
    | nil => simp [headWsOrNil] at hp
    | cons a P' => simp at hl
  | c :: t, h => by
    by_cases hc : isWs c = true
    · obtain ⟨u, v, hl⟩ := h
      cases u with
      | nil =>
        cases P with
        | nil => simp [headWsOrNil] at hp
        | cons a P' =>
          have ha : c = a := by
            rw [List.nil_append] at hl
            exact (List.cons.injEq _ _ _ _ ▸ hl).1
          rw [headWsOrNil, ← ha, hc] at hp
          exact absurd hp (by simp)
      | cons a u' =>
        have ht : SegIn P t := by
          refine ⟨u', v, ?_⟩
          have := hl
          simp only [List.cons_append] at this
          exact (List.cons.injEq _ _ _ _ ▸ this).2
        have h2 := segIn_dropWhile P hp t ht
        rw [List.dropWhile_cons, if_pos hc]
        exact h2
    · rw [List.dropWhile_cons, if_neg hc]
      exact h

theorem segIn_reverse (P l : List Char) (h : SegIn P l) : SegIn P.reverse l.reverse := by
  obtain ⟨u, v, hl⟩ := h
  exact ⟨v.reverse, u.reverse, by rw [hl]; simp [List.reverse_append, List.append_assoc]⟩

theorem segIn_jsTrim (P : List Char) (hp1 : headWsOrNil P = false)
    (hp2 : headWsOrNil P.reverse = false) (l : List Char) (h : SegIn P l) :
    SegIn P (jsTrim l) := by
  unfold jsTrim
  have h1 := segIn_dropWhile P hp1 l h
  have h2 := segIn_reverse P _ h1
  have h3 := segIn_dropWhile P.reverse hp2 _ h2
  have h4 := segIn_reverse P.reverse _ h3
  rw [List.reverse_reverse] at h4
  exact h4

/-- C3 counterexample: when the nested-children fetch answers with a
non-2xx status rather than throwing, the children are silently omitted
and no placeholder appears in the persisted content, although the fetch
failed; the request still succeeds. -/
theorem c3_counterexample :
    noteContent (handler scenarioReq (okEnv ⟨[], []⟩ httpErrBlocks (str "1/1/2026"))) = str "Hi" ∧
    hasSeg (str "*[Error loading nested content]*") (str "Hi") = false ∧
    respStatus (handler scenarioReq (okEnv ⟨[], []⟩ httpErrBlocks (str "1/1/2026"))) = 200 := by
  decide

/-- C3 amended: the placeholder is inserted exactly when the
nested-children fetch throws: for every otherwise-successful import in
which some block with children has a thrown children fetch, the request
returns the 200 success envelope and the persisted content contains the
literal placeholder at that block position (a non-2xx children response
instead omits the children silently). -/
theorem c3_amended (u p pr : List Char) (hu : u ≠ []) (hp : p ≠ []) (hpr : pr ≠ [])
    (pd : PageData) (today : List Char) (pre post : BlockList) (d : BlockData) :
    respStatus (handler ⟨some u, some p, some pr⟩
        (okEnv pd (appendB pre (.consB (.mk d true .thrown .nilB) post)) today)) = 200 ∧
    isSuccess (handler ⟨some u, some p, some pr⟩
        (okEnv pd (appendB pre (.consB (.mk d true .thrown .nilB) post)) today)) = true ∧
    SegIn (str "*[Error loading nested content]*")
      (noteContent (handler ⟨some u, some p, some pr⟩
        (okEnv pd (appendB pre (.consB (.mk d true .thrown .nilB) post)) today))) := by
  rw [handler_okEnv u p pr hu hp hpr pd _ today]
  refine ⟨rfl, rfl, ?_⟩
  show SegIn _ (jsTrim (processBlocksList (appendB pre (.consB (.mk d true .thrown .nilB) post)) 0))
  refine segIn_jsTrim _ (by decide) (by decide) _ ?_
  rw [processBlocksList_append]
  have hred : processBlocksList (.consB (.mk d true .thrown .nilB) post) 0 =
      (processBlock d 0 ++ str "\n\n*[Error loading nested content]*\n\n") ++
        processBlocksList post 0 := rfl
  rw [hred]
  have hsplit : str "\n\n*[Error loading nested content]*\n\n" =
      str "\n\n" ++ (str "*[Error loading nested content]*" ++ str "\n\n") := by decide
  rw [hsplit]
  exact ⟨processBlocksList pre 0 ++ (processBlock d 0 ++ str "\n\n"),
    str "\n\n" ++ processBlocksList post 0, by simp [List.append_assoc]⟩

/-- C3 amended, witness: one paragraph block whose children fetch threw. -/
theorem c3_amended_witness :
    respStatus (handler ⟨some (str "user-1"), some (str "page-1"), some (str "proj-1")⟩
        (okEnv ⟨[], []⟩
          (appendB .nilB (.consB (.mk (.paragraph [⟨str "Hi"⟩]) true .thrown .nilB) .nilB))
          (str "1/1/2026"))) = 200 ∧
    isSuccess (handler ⟨some (str "user-1"), some (str "page-1"), some (str "proj-1")⟩
        (okEnv ⟨[], []⟩
          (appendB .nilB (.consB (.mk (.paragraph [⟨str "Hi"⟩]) true .thrown .nilB) .nilB))
          (str "1/1/2026"))) = true ∧
    SegIn (str "*[Error loading nested content]*")
      (noteContent (handler ⟨some (str "user-1"), some (str "page-1"), some (str "proj-1")⟩
        (okEnv ⟨[], []⟩
          (appendB .nilB (.consB (.mk (.paragraph [⟨str "Hi"⟩]) true .thrown .nilB) .nilB))
          (str "1/1/2026")))) :=
  c3_amended _ _ _ (by decide) (by decide) (by decide) _ _ _ _ _

/-! ## C5 -/

theorem noWsPair_cons (c : Char) (t : List Char) (h : noWsPair (c :: t) = true) :
    noWsPair t = true := by
  cases t with
  | nil => rfl
  | cons b t' =>
    rw [noWsPair, Bool.and_eq_true] at h
    exact h.2

theorem noWsPair_cons_nonws (c : Char) (X : List Char) (hc : isWs c = false)
    (h : noWsPair X = true) : noWsPair (c :: X) = true := by
  cases X with
  | nil => rfl
  | cons d t => simp [noWsPair, hc, h]

theorem noWsPair_cons_headNonws (c : Char) (X : List Char) (hX : wsHead X = false)
    (h : noWsPair X = true) : noWsPair (c :: X) = true := by
  cases X with
  | nil => rfl
  | cons d t =>
    rw [wsHead] at hX
    simp [noWsPair, hX, h]

theorem wsHead_cwAux_true : ∀ (s : List Char), wsHead (cwAux true s) = false
  | [] => rfl
  | c :: t => by
    by_cases hc : isWs c = true
    · simpa [cwAux, hc] using wsHead_cwAux_true t
    · simp [cwAux, hc, wsHead]

theorem cwAux_noWsPair : ∀ (s : List Char) (b : Bool), noWsPair (cwAux b s) = true
  | [], _ => rfl
  | c :: t, b => by
    by_cases hc : isWs c = true
    · cases b with
      | true =>
        have h1 : cwAux true (c :: t) = cwAux true t := by simp [cwAux, hc]
        rw [h1]
        exact cwAux_noWsPair t true
      | false =>
        have h1 : cwAux false (c :: t) = (if wsHead t then ' ' else c) :: cwAux true t := by
          simp [cwAux, hc]
        rw [h1]
        exact noWsPair_cons_headNonws _ _ (wsHead_cwAux_true t) (cwAux_noWsPair t true)
    · have h1 : cwAux b (c :: t) = c :: cwAux false t := by simp [cwAux, hc]
      rw [h1]
      refine noWsPair_cons_nonws c _ ?_ (cwAux_noWsPair t false)
      simpa using hc

theorem noWsPair_dropWhile (p : Char → Bool) : ∀ (l : List Char),
    noWsPair l = true → noWsPair (l.dropWhile p) = true
  | [], h => h
  | c :: t, h => by
    rw [List.dropWhile_cons]
    by_cases hc : p c = true
    · rw [if_pos hc]
      exact noWsPair_dropWhile p t (noWsPair_cons c t h)
    · rw [if_neg hc]
      exact h

theorem noWsPair_iff_chain : ∀ (l : List Char),
    noWsPair l = true ↔ List.Chain' (fun a b => isWs a = false ∨ isWs b = false) l
  | [] => by simp [noWsPair]
  | [a] => by simp [noWsPair]
  | a :: b :: t => by
    rw [noWsPair, Bool.and_eq_true, List.chain'_cons, noWsPair_iff_chain (b :: t)]
    constructor
    · rintro ⟨h1, h2⟩
      have h1' : isWs a = false ∨ isWs b = false := by simpa using h1
      exact ⟨h1', h2⟩
    · rintro ⟨h1, h2⟩
      refine ⟨?_, h2⟩
      rcases h1 with h | h <;> simp [h]

theorem noWsPair_reverse (l : List Char) (h : noWsPair l = true) :
    noWsPair l.reverse = true := by
  rw [noWsPair_iff_chain] at h ⊢
  rw [List.chain'_reverse]
  exact h.imp (fun a b hab => Or.symm hab)

theorem noWsPair_jsTrim (l : List Char) (h : noWsPair l = true) :
    noWsPair (jsTrim l) = true := by
  unfold jsTrim
  exact noWsPair_reverse _ (noWsPair_dropWhile _ _ (noWsPair_reverse _ (noWsPair_dropWhile _ _ h)))

theorem noTripleNl_cons_nonNl (c : Char) (X : List Char) (hc : c ≠ '\n')
    (h : noTripleNl X = true) : noTripleNl (c :: X) = true := by
  cases X with
  | nil => rfl
  | cons a t =>
    cases t with
    | nil => rfl
    | cons b t' => simp [noTripleNl, hc, h]

theorem leadingNl_nl (X : List Char) : leadingNl ('\n' :: X) = leadingNl X + 1 := by
  simp [leadingNl]

theorem noTripleNl_cons_nl (X : List Char) (h : noTripleNl X = true) (hl : leadingNl X ≤ 1) :
    noTripleNl ('\n' :: X) = true := by
  cases X with
  | nil => rfl
  | cons a t =>
    cases t with
    | nil => rfl
    | cons b t' =>
      by_cases ha : a = '\n'
      · subst ha
        have hb : b ≠ '\n' := by
          intro hb
          subst hb
          rw [leadingNl_nl, leadingNl_nl] at hl
          omega
        simp [noTripleNl, hb, h]
      · simp [noTripleNl, ha, h]

theorem cnAux_bounds : ∀ (s : List Char) (k : Nat),
    noTripleNl (cnAux k s) = true ∧ min k 2 + leadingNl (cnAux k s) ≤ 2
  | [], k => by
    refine ⟨rfl, ?_⟩
    simp [cnAux, leadingNl]
  | c :: t, k => by
    by_cases hc : c = '\n'
    · subst hc
      by_cases hk : k < 2
      · obtain ⟨ih1, ih2⟩ := cnAux_bounds t (k + 1)
        have hout : cnAux k ('\n' :: t) = '\n' :: cnAux (k + 1) t := by simp [cnAux, hk]
        rw [hout]
        constructor
        · refine noTripleNl_cons_nl _ ih1 ?_
          omega
        · rw [leadingNl_nl]
          omega
      · obtain ⟨ih1, ih2⟩ := cnAux_bounds t (k + 1)
        have hout : cnAux k ('\n' :: t) = cnAux (k + 1) t := by simp [cnAux, hk]
        rw [hout]
        exact ⟨ih1, by omega⟩
    · obtain ⟨ih1, ih2⟩ := cnAux_bounds t 0
      have hout : cnAux k (c :: t) = c :: cnAux 0 t := by simp [cnAux, hc]
      rw [hout]
      refine ⟨noTripleNl_cons_nonNl c _ hc ih1, ?_⟩
      have hz : leadingNl (c :: cnAux 0 t) = 0 := by simp [leadingNl, hc]
      rw [hz]
      omega

/-- C5 counterexample: on an input with a run of four newlines the full
pass does not leave two newlines there: rule 1 collapses the run to two,
but the later whitespace rule collapses those two to a single space, so
the output has no newline at all. -/
theorem c5_counterexample :
    formatSummaryText (str "a\n\n\n\nb") = str "a b" ∧
    ((str "a b" : List Char).contains '\n') = false := by
  decide

/-- C5 amended: the first rewrite alone collapses every newline run of
three or more to exactly two (its output never contains three adjacent
newlines), and the full pass goes further: its output never contains two
adjacent whitespace characters, so the claimed run ends up as a single
space, not as two newlines. -/
theorem c5_amended (s : List Char) :
    noTripleNl (collapseNl s) = true ∧ noWsPair (formatSummaryText s) = true := by
  constructor
  · exact (cnAux_bounds s 0).1
  · unfold formatSummaryText
    by_cases h : s = []
    · simp [h, noWsPair]
    · rw [if_neg h]
      exact noWsPair_jsTrim _ (cwAux_noWsPair _ false)

/-! ## C4: behaviour of each rewrite on single-line input -/

theorem nmc {a c : Char} {t : List Char} (h : a ∉ c :: t) : a ≠ c ∧ a ∉ t := by
  rw [List.mem_cons] at h
  push_neg at h
  exact h

theorem noLT_cons {c : Char} {t : List Char} (h : noLT (c :: t) = true) :
    isLineTerm c = false ∧ noLT t = true := by
  rw [noLT, List.all_cons, Bool.and_eq_true] at h
  exact ⟨by simpa using h.1, h.2⟩

theorem noLT_cons_of (c : Char) (t : List Char) (hc : isLineTerm c = false)
    (h : noLT t = true) : noLT (c :: t) = true := by
  rw [noLT, List.all_cons]
  rw [noLT] at h
  simp [hc, h]

theorem noLT_noNl : ∀ (s : List Char), noLT s = true → '\n' ∉ s
  | [], _ => by simp
  | c :: t, h => by
    obtain ⟨h1, h2⟩ := noLT_cons h
    intro hm
    rcases List.mem_cons.mp hm with he | hm2
    · rw [← he] at h1
      exact absurd h1 (by decide)
    · exact noLT_noNl t h2 hm2

theorem noLT_dropWhile : ∀ (l : List Char), noLT l = true → noLT (l.dropWhile isWs) = true
  | [], h => h
  | c :: t, h => by
    obtain ⟨_, h2⟩ := noLT_cons h
    by_cases hc : isWs c = true
    · rw [List.dropWhile_cons, if_pos hc]
      exact noLT_dropWhile t h2
    · rw [List.dropWhile_cons, if_neg hc]
      exact h

theorem cn_id_noNl : ∀ (s : List Char) (k : Nat), '\n' ∉ s → cnAux k s = s
  | [], _, _ => rfl
  | c :: t, k, h => by
    obtain ⟨h1, h2⟩ := nmc h
    simp only [cnAux, if_neg (Ne.symm h1)]
    rw [cn_id_noNl t 0 h2]

theorem bn_ff_id_noLT : ∀ (s : List Char), noLT s = true → bnAux false false s = s
  | [], _ => rfl
  | c :: t, h => by
    obtain ⟨h1, h2⟩ := noLT_cons h
    simp only [bnAux, Bool.false_and, Bool.false_eq_true, if_false]
    rw [h1]
    rw [bn_ff_id_noLT t h2]

theorem bn_skip_noLT : ∀ (t : List Char), noLT t = true → bnAux true false t = t.dropWhile isWs
  | [], _ => rfl
  | c :: t, h => by
    obtain ⟨h1, h2⟩ := noLT_cons h
    by_cases hc : isWs c = true
    · rw [List.dropWhile_cons, if_pos hc]
      simp only [bnAux, hc, Bool.and_true, Bool.true_and, if_true]
      rw [h1]
      exact bn_skip_noLT t h2
    · rw [List.dropWhile_cons, if_neg hc]
      simp only [bnAux]
      rw [show (true && isWs c) = false by simp [hc]]
      simp only [Bool.false_eq_true, if_false, Bool.false_and]
      rw [h1]
      rw [bn_ff_id_noLT t h2]

theorem bn_nonbullet_noLT (c : Char) (t : List Char) (hc : isLineTerm c = false)
    (hb : isBullet c = false) (h : noLT t = true) : bulletNorm (c :: t) = c :: t := by
  unfold bulletNorm
  simp only [bnAux, Bool.false_and, Bool.false_eq_true, if_false, hb, Bool.and_false]
  rw [hc]
  rw [bn_ff_id_noLT t h]

theorem bn_bullet_noLT (c : Char) (t : List Char) (hb : isBullet c = true)
    (h : noLT t = true) : bulletNorm (c :: t) = '•' :: ' ' :: t.dropWhile isWs := by
  unfold bulletNorm
  simp only [bnAux, Bool.false_and, Bool.false_eq_true, if_false, hb, Bool.and_true, Bool.true_and,
    if_true]
  rw [bn_skip_noLT t h]

theorem hbMatch_noNl (t : List Char) (h : '\n' ∉ t) : hbMatch t = false := by
  cases t with
  | nil => rfl
  | cons c u =>
    obtain ⟨h1, _⟩ := nmc h
    simp only [hbMatch]
    rw [show (c == '\n') = false by simp [Ne.symm h1]]
    simp

theorem hb_id_noNl : ∀ (s : List Char), '\n' ∉ s → hbAux 0 s = s
  | [], _ => rfl
  | c :: t, h => by
    obtain ⟨h1, h2⟩ := nmc h
    simp only [hbAux, hbMatch_noNl t h2, Bool.and_false, Bool.false_eq_true, if_false]
    rw [hb_id_noNl t h2]

theorem takeWhile_nonNl (l : List Char) (h : '\n' ∉ l) :
    l.takeWhile (fun c => c != '\n') = l := by
  induction l with
  | nil => rfl
  | cons c t ih =>
    obtain ⟨h1, h2⟩ := nmc h
    rw [List.takeWhile_cons]
    rw [show (c != '\n') = true by simp [Ne.symm h1]]
    simp [ih h2]

theorem ha_nf_id_noLT : ∀ (s : List Char), noLT s = true → haAux none false s = s
  | [], _ => rfl
  | c :: t, h => by
    obtain ⟨h1, h2⟩ := noLT_cons h
    simp only [haAux, Bool.false_eq_true, if_false]
    rw [h1]
    rw [ha_nf_id_noLT t h2]

theorem ha_copy : ∀ (t : List Char) (b : Bool), t ≠ [] →
    haAux (some t.length) b t = t ++ ['\n', '\n']
  | [], _, ht => absurd rfl ht
  | [c], b, _ => rfl
  | c :: d :: t, b, _ => by
    show haAux (some (t.length + 2)) b (c :: d :: t) = c :: d :: t ++ ['\n', '\n']
    simp only [haAux]
    rw [show t.length + 1 = (d :: t).length from rfl]
    rw [ha_copy (d :: t) false (by simp)]
    rfl

theorem haBody_noNl (s : List Char) (hnl : '\n' ∉ s) :
    haBody s = List.drop (hashRun s + 1) s := by
  unfold haBody
  exact takeWhile_nonNl _ (fun hm => hnl (List.drop_subset _ _ hm))

theorem haMatchLen_noNl (s : List Char) (hnl : '\n' ∉ s) (hne : haMatchLen s ≠ 0) :
    haMatchLen s = s.length := by
  unfold haMatchLen at hne ⊢
  by_cases hg : (decide (1 ≤ hashRun s) && decide (hashRun s ≤ 6) &&
      wsHead (List.drop (hashRun s) s)) = true
  · rw [if_pos hg] at hne ⊢
    have hlt : hashRun s < s.length := by
      have hw : wsHead (List.drop (hashRun s) s) = true := by
        simp only [Bool.and_eq_true] at hg
        exact hg.2
      by_contra hge
      push_neg at hge
      rw [List.drop_eq_nil_of_le hge] at hw
      simp [wsHead] at hw
    have hlen : (haBody s).length = s.length - (hashRun s + 1) := by
      rw [haBody_noNl s hnl]
      simp [List.length_drop]
    rw [hlen] at hne ⊢
    by_cases hz : (s.length - (hashRun s + 1) == 0) = true
    · rw [if_pos hz] at hne
      exact absurd rfl hne
    · rw [if_neg hz] at hne ⊢
      have hafter : haAfter s = [] := by
        unfold haAfter
        rw [hlen]
        apply List.drop_eq_nil_of_le
        omega
      rw [hafter]
      simp only [nlnlHead]
      simp only [Bool.false_eq_true, if_false]
      omega
  · rw [if_neg hg] at hne
    exact absurd rfl hne

theorem ha_start_noLT (s : List Char) (hlt : noLT s = true) :
    haAux none true s = if 2 ≤ haMatchLen s then s ++ ['\n', '\n'] else s := by
  cases s with
  | nil => rfl
  | cons c t =>
    obtain ⟨h1, h2⟩ := noLT_cons hlt
    have hnl : '\n' ∉ c :: t := noLT_noNl _ hlt
    by_cases hm : 2 ≤ haMatchLen (c :: t)
    · rw [if_pos hm]
      have hlen : haMatchLen (c :: t) = (c :: t).length :=
        haMatchLen_noNl _ hnl (by omega)
      simp only [haAux, if_pos hm, if_true]
      rw [hlen]
      show c :: haAux (some ((c :: t).length - 1)) false t = (c :: t) ++ ['\n', '\n']
      have hl2 : (c :: t).length - 1 = t.length := by simp
      rw [hl2]
      have htne : t ≠ [] := by
        intro hte
        subst hte
        rw [hlen] at hm
        simp at hm
      rw [ha_copy t false htne]
      rfl
    · rw [if_neg hm]
      simp only [haAux, if_neg hm, if_true]
      rw [h1]
      rw [ha_nf_id_noLT t h2]

theorem ps_id_noNl : ∀ (s : List Char), '\n' ∉ s → psAux s = s
  | [], _ => rfl
  | [x], _ => rfl
  | [x, y], _ => rfl
  | x :: y :: z :: rest, h => by
    obtain ⟨h1, h2⟩ := nmc h
    obtain ⟨h3, h4⟩ := nmc h2
    simp only [psAux]
    rw [show (y == '\n') = false by simp [Ne.symm h3]]
    simp only [Bool.false_and, Bool.and_false, Bool.false_eq_true, if_false]
    rw [ps_id_noNl (y :: z :: rest) h2]

theorem psAux_cons_ne (x y z : Char) (rest : List Char) (hy : (y == '\n') = false) :
    psAux (x :: y :: z :: rest) = x :: psAux (y :: z :: rest) := by
  simp only [psAux, hy]
  simp

theorem psAux_nlnl_arm (x : Char) (rest : List Char) :
    psAux (x :: '\n' :: '\n' :: rest) = x :: psAux ('\n' :: '\n' :: rest) := by
  simp only [psAux, show isWs '\n' = true from rfl]
  simp

theorem ps_append_nlnl_noNl : ∀ (s : List Char), '\n' ∉ s →
    psAux (s ++ ['\n', '\n']) = s ++ ['\n', '\n']
  | [], _ => rfl
  | [x], _ => by
    show psAux (x :: '\n' :: '\n' :: []) = x :: '\n' :: '\n' :: []
    rw [psAux_nlnl_arm]
    rfl
  | x :: y :: t, h => by
    obtain ⟨h1, h2⟩ := nmc h
    obtain ⟨h3, _⟩ := nmc h2
    have hy : (y == '\n') = false := by simp [Ne.symm h3]
    have ih := ps_append_nlnl_noNl (y :: t) h2
    cases t with
    | nil =>
      show psAux (x :: y :: '\n' :: ['\n']) = x :: y :: '\n' :: ['\n']
      rw [psAux_cons_ne x y '\n' ['\n'] hy]
      show x :: psAux ([y] ++ ['\n', '\n']) = _
      rw [ih]
      rfl
    | cons z u =>
      show psAux (x :: y :: z :: (u ++ ['\n', '\n'])) = x :: y :: z :: (u ++ ['\n', '\n'])
      rw [psAux_cons_ne x y z (u ++ ['\n', '\n']) hy]
      show x :: psAux ((y :: z :: u) ++ ['\n', '\n']) = _
      rw [ih]
      rfl

theorem cw_head (c : Char) (t : List Char) (b : Bool) (hc : isWs c = false) :
    cwAux b (c :: t) = c :: cwAux false t := by
  simp [cwAux, hc]

theorem cw_true_eq_false (t : List Char) (ht : wsHead t = false) :
    cwAux true t = cwAux false t := by
  cases t with
  | nil => rfl
  | cons d u =>
    rw [wsHead] at ht
    rw [cw_head d u true ht, cw_head d u false ht]

theorem cw_id : ∀ (s : List Char), noWsPair s = true → cwAux false s = s
  | [], _ => rfl
  | c :: t, h => by
    by_cases hc : isWs c = true
    · have hwt : wsHead t = false := by
        cases t with
        | nil => rfl
        | cons d u =>
          simp only [noWsPair, Bool.and_eq_true] at h
          have h1 := h.1
          rw [wsHead]
          simpa [hc] using h1
      have hstep : cwAux false (c :: t) = c :: cwAux true t := by
        simp [cwAux, hc, hwt]
      rw [hstep, cw_true_eq_false t hwt, cw_id t (noWsPair_cons c t h)]
    · rw [cw_head c t false (by simpa using hc), cw_id t (noWsPair_cons c t h)]

theorem wsHead_append_left (l r : List Char) (h : l ≠ []) : wsHead (l ++ r) = wsHead l := by
  cases l with
  | nil => exact absurd rfl h
  | cons c t => rfl

theorem cw_app_nlnl : ∀ (s : List Char) (b : Bool), wsHead s.reverse = false →
    (s = [] → b = false) → cwAux b (s ++ ['\n', '\n']) = cwAux b s ++ [' ']
  | [], b, _, hb => by
    have hbf : b = false := hb rfl
    subst hbf
    decide
  | c :: t, b, hrev, _ => by
    cases t with
    | nil =>
      have hc : isWs c = false := by simpa [wsHead] using hrev
      rw [show ([c] ++ ['\n', '\n'] : List Char) = c :: ['\n', '\n'] from rfl]
      rw [cw_head c _ b hc, cw_head c [] b hc]
      rw [show cwAux false ['\n', '\n'] = [' '] from by decide]
      rfl
    | cons d u =>
      have hrt : wsHead (d :: u).reverse = false := by
        rw [List.reverse_cons, wsHead_append_left _ _ (by simp)] at hrev
        exact hrev
      by_cases hc : isWs c = true
      · cases b with
        | true =>
          have l1 : cwAux true ((c :: d :: u) ++ ['\n', '\n']) =
              cwAux true ((d :: u) ++ ['\n', '\n']) := by
            simp [cwAux, hc]
          have l2 : cwAux true (c :: d :: u) = cwAux true (d :: u) := by simp [cwAux, hc]
          rw [l1, l2, cw_app_nlnl (d :: u) true hrt (by simp)]
        | false =>
          have hwEq : wsHead ((d :: u) ++ ['\n', '\n']) = wsHead (d :: u) :=
            wsHead_append_left _ _ (by simp)
          have l1 : cwAux false ((c :: d :: u) ++ ['\n', '\n']) =
              (if wsHead (d :: u) then ' ' else c) :: cwAux true ((d :: u) ++ ['\n', '\n']) := by
            simp only [List.cons_append, cwAux, hc, if_true]
            rw [show wsHead ((d :: u).append ['\n', '\n']) = wsHead (d :: u) from hwEq]
            simp
          have l2 : cwAux false (c :: d :: u) =
              (if wsHead (d :: u) then ' ' else c) :: cwAux true (d :: u) := by
            simp only [cwAux, hc, if_true]
            simp [wsHead]
          rw [l1, l2, cw_app_nlnl (d :: u) true hrt (by simp)]
          rfl
      · have hc' : isWs c = false := by simpa using hc
        rw [show ((c :: d :: u) ++ ['\n', '\n']) = c :: ((d :: u) ++ ['\n', '\n']) from rfl]
        rw [cw_head c _ b hc', cw_head c (d :: u) b hc']
        rw [cw_app_nlnl (d :: u) false hrt (by simp)]
        rfl

theorem cw_noNl : ∀ (s : List Char) (b : Bool), '\n' ∉ s → '\n' ∉ cwAux b s
  | [], _, _ => by simp [cwAux]
  | c :: t, b, h => by
    obtain ⟨h1, h2⟩ := nmc h
    by_cases hc : isWs c = true
    · cases b with
      | true =>
        have hx : cwAux true (c :: t) = cwAux true t := by simp [cwAux, hc]
        rw [hx]
        exact cw_noNl t true h2
      | false =>
        have hx : cwAux false (c :: t) = (if wsHead t then ' ' else c) :: cwAux true t := by
          simp [cwAux, hc]
        rw [hx]
        intro hmem
        rcases List.mem_cons.mp hmem with he | hm
        · by_cases hw : wsHead t = true
          · rw [if_pos hw] at he
            exact absurd he (by decide)
          · rw [if_neg hw] at he
            exact h1 he
        · exact cw_noNl t true h2 hm
    · rw [cw_head c t b (by simpa using hc)]
      intro hmem
      rcases List.mem_cons.mp hmem with he | hm
      · exact h1 he
      · exact cw_noNl t false h2 hm

theorem cw_last : ∀ (s : List Char) (b : Bool), s ≠ [] → wsHead s.reverse = false →
    cwAux b s ≠ [] ∧ wsHead (cwAux b s).reverse = false
  | [], _, hs, _ => absurd rfl hs
  | [c], b, _, hrev => by
    have hc : isWs c = false := by simpa [wsHead] using hrev
    rw [cw_head c [] b hc]
    exact ⟨by simp, by simpa [wsHead] using hrev⟩
  | c :: d :: u, b, _, hrev => by
    have hrt : wsHead (d :: u).reverse = false := by
      rw [List.reverse_cons, wsHead_append_left _ _ (by simp)] at hrev
      exact hrev
    by_cases hc : isWs c = true
    · cases b with
      | true =>
        have hx : cwAux true (c :: d :: u) = cwAux true (d :: u) := by simp [cwAux, hc]
        rw [hx]
        exact cw_last (d :: u) true (by simp) hrt
      | false =>
        have hX := cw_last (d :: u) true (by simp) hrt
        have hx : cwAux false (c :: d :: u) =
            (if wsHead (d :: u) then ' ' else c) :: cwAux true (d :: u) := by
          simp only [cwAux, hc, if_true]
          simp [wsHead]
        rw [hx]
        refine ⟨by simp, ?_⟩
        rw [List.reverse_cons, wsHead_append_left _ _ (fun heq => hX.1 (by simpa using heq))]
        exact hX.2
    · rw [cw_head c (d :: u) b (by simpa using hc)]
      have hX := cw_last (d :: u) false (by simp) hrt
      refine ⟨by simp, ?_⟩
      rw [List.reverse_cons, wsHead_append_left _ _ (fun heq => hX.1 (by simpa using heq))]
      exact hX.2

theorem dropWhile_id_headNonws (s : List Char) (hh : wsHead s = false) :
    s.dropWhile isWs = s := by
  cases s with
  | nil => rfl
  | cons c t =>
    rw [wsHead] at hh
    rw [List.dropWhile_cons, if_neg (by simp [hh])]

theorem jsTrim_id (s : List Char) (hh : wsHead s = false) (hl : wsHead s.reverse = false) :
    jsTrim s = s := by
  unfold jsTrim
  rw [dropWhile_id_headNonws s hh, dropWhile_id_headNonws s.reverse hl, List.reverse_reverse]

theorem jsTrim_snoc_space (X : List Char) (hne : X ≠ []) (whX : wsHead X = false)
    (whXr : wsHead X.reverse = false) : jsTrim (X ++ [' ']) = X := by
  unfold jsTrim
  have h1 : (X ++ [' ']).dropWhile isWs = X ++ [' '] := by
    cases X with
    | nil => exact absurd rfl hne
    | cons c t =>
      rw [wsHead] at whX
      rw [List.cons_append, List.dropWhile_cons, if_neg (by simp [whX])]
  rw [h1, List.reverse_append]
  show ((' ' :: X.reverse).dropWhile isWs).reverse = X
  rw [List.dropWhile_cons, if_pos (by decide)]
  rw [dropWhile_id_headNonws X.reverse whXr, List.reverse_reverse]

theorem wsHead_dropWhile : ∀ (l : List Char), wsHead (l.dropWhile isWs) = false
  | [] => rfl
  | c :: t => by
    by_cases hc : isWs c = true
    · rw [List.dropWhile_cons, if_pos hc]
      exact wsHead_dropWhile t
    · rw [List.dropWhile_cons, if_neg hc, wsHead]
      simpa using hc

theorem noNl_dropWhile : ∀ (l : List Char), '\n' ∉ l → '\n' ∉ l.dropWhile isWs
  | [], h => h
  | c :: t, h => by
    obtain ⟨_, h2⟩ := nmc h
    by_cases hc : isWs c = true
    · rw [List.dropWhile_cons, if_pos hc]
      exact noNl_dropWhile t h2
    · rw [List.dropWhile_cons, if_neg hc]
      exact h

theorem dropWhile_ne_nil_lastNonws : ∀ (l : List Char), wsHead l.reverse = false → l ≠ [] →
    l.dropWhile isWs ≠ []
  | [], _, hn => absurd rfl hn
  | c :: t, hrev, _ => by
    by_cases hc : isWs c = true
    · rw [List.dropWhile_cons, if_pos hc]
      cases t with
      | nil =>
        rw [show ([c] : List Char).reverse = [c] from rfl, wsHead, hc] at hrev
        exact absurd hrev (by simp)
      | cons d u =>
        have hrt : wsHead (d :: u).reverse = false := by
          rw [List.reverse_cons, wsHead_append_left _ _ (by simp)] at hrev
          exact hrev
        exact dropWhile_ne_nil_lastNonws (d :: u) hrt (by simp)
    · rw [List.dropWhile_cons, if_neg hc]
      simp

theorem wsHead_rev_dropWhile : ∀ (l : List Char), wsHead l.reverse = false →
    wsHead (l.dropWhile isWs).reverse = false
  | [], h => h
  | c :: t, hrev => by
    by_cases hc : isWs c = true
    · rw [List.dropWhile_cons, if_pos hc]
      cases t with
      | nil => rfl
      | cons d u =>
        have hrt : wsHead (d :: u).reverse = false := by
          rw [List.reverse_cons, wsHead_append_left _ _ (by simp)] at hrev
          exact hrev
        exact wsHead_rev_dropWhile (d :: u) hrt
    · rw [List.dropWhile_cons, if_neg hc]
      exact hrev

theorem haMatchLen_nonHash (c : Char) (r : List Char) (hc : c ≠ '#') :
    haMatchLen (c :: r) = 0 := by
  unfold haMatchLen
  rw [show hashRun (c :: r) = 0 from by simp [hashRun, hc]]
  simp

/-- Rule 6 preserves freedom from line terminators: it only ever emits
characters of its input or a space. -/
theorem cw_noLT : ∀ (s : List Char) (b : Bool), noLT s = true → noLT (cwAux b s) = true
  | [], _, _ => rfl
  | c :: t, b, h => by
    obtain ⟨h1, h2⟩ := noLT_cons h
    by_cases hc : isWs c = true
    · cases b with
      | true =>
        have hx : cwAux true (c :: t) = cwAux true t := by simp [cwAux, hc]
        rw [hx]
        exact cw_noLT t true h2
      | false =>
        have hx : cwAux false (c :: t) = (if wsHead t then ' ' else c) :: cwAux true t := by
          simp [cwAux, hc]
        rw [hx]
        refine noLT_cons_of _ _ ?_ (cw_noLT t true h2)
        by_cases hw : wsHead t = true
        · rw [if_pos hw]
          decide
        · rw [if_neg hw]
          exact h1
    · rw [cw_head c t b (by simpa using hc)]
      exact noLT_cons_of c _ h1 (cw_noLT t false h2)

/-- On a single-line trimmed input that does not start with a bullet, the
whole pass reduces to the whitespace-collapsing rule. -/
theorem fmt_plain (c : Char) (t : List Char) (hlt : noLT (c :: t) = true)
    (hh : wsHead (c :: t) = false)
    (hl : wsHead (c :: t).reverse = false) (hb : isBullet c = false) :
    formatSummaryText (c :: t) = cwAux false (c :: t) := by
  obtain ⟨h1, h2⟩ := noLT_cons hlt
  have hnl : '\n' ∉ c :: t := noLT_noNl _ hlt
  unfold formatSummaryText
  rw [if_neg (by simp : ¬(c :: t = []))]
  have e1 : collapseNl (c :: t) = c :: t := cn_id_noNl (c :: t) 0 hnl
  have e2 : bulletNorm (c :: t) = c :: t := bn_nonbullet_noLT c t h1 hb h2
  have e3 : headingBefore (c :: t) = c :: t := hb_id_noNl (c :: t) hnl
  rw [e1, e2, e3]
  have e4 : headingAfter (c :: t) =
      if 2 ≤ haMatchLen (c :: t) then (c :: t) ++ ['\n', '\n'] else c :: t :=
    ha_start_noLT (c :: t) hlt
  have hX1 := cw_last (c :: t) false (by simp) hl
  have hXh : wsHead (cwAux false (c :: t)) = false := by
    rw [cw_head c t false hh]
    exact hh
  by_cases hm : 2 ≤ haMatchLen (c :: t)
  · rw [e4, if_pos hm]
    have e5 : paraSpace ((c :: t) ++ ['\n', '\n']) = (c :: t) ++ ['\n', '\n'] :=
      ps_append_nlnl_noNl (c :: t) hnl
    rw [e5]
    have e6 : collapseWs ((c :: t) ++ ['\n', '\n']) = cwAux false (c :: t) ++ [' '] :=
      cw_app_nlnl (c :: t) false hl (fun h => absurd h (by simp))
    rw [e6]
    exact jsTrim_snoc_space _ hX1.1 hXh hX1.2
  · rw [e4, if_neg hm]
    have e5 : paraSpace (c :: t) = c :: t := ps_id_noNl (c :: t) hnl
    rw [e5]
    exact jsTrim_id _ hXh hX1.2

/-- On a single-line trimmed input that starts with a bullet followed by
more text, the pass yields the normalized bullet, one space, and the
whitespace-collapsed remainder. -/
theorem fmt_bullet_cons (c : Char) (t : List Char) (hlt : noLT (c :: t) = true)
    (hb : isBullet c = true) (ht' : t.dropWhile isWs ≠ [])
    (hlt' : wsHead (t.dropWhile isWs).reverse = false) :
    formatSummaryText (c :: t) = '•' :: ' ' :: cwAux false (t.dropWhile isWs) := by
  obtain ⟨h1, h2⟩ := noLT_cons hlt
  have hnl : '\n' ∉ c :: t := noLT_noNl _ hlt
  have h2n : '\n' ∉ t := (nmc hnl).2
  unfold formatSummaryText
  rw [if_neg (by simp : ¬(c :: t = []))]
  have e1 : collapseNl (c :: t) = c :: t := cn_id_noNl (c :: t) 0 hnl
  have e2 : bulletNorm (c :: t) = '•' :: ' ' :: t.dropWhile isWs := bn_bullet_noLT c t hb h2
  have hltu : noLT ('•' :: ' ' :: t.dropWhile isWs) = true :=
    noLT_cons_of '•' _ (by decide) (noLT_cons_of ' ' _ (by decide) (noLT_dropWhile t h2))
  have hnlu : '\n' ∉ '•' :: ' ' :: t.dropWhile isWs := noLT_noNl _ hltu
  have e3 : headingBefore ('•' :: ' ' :: t.dropWhile isWs) = '•' :: ' ' :: t.dropWhile isWs :=
    hb_id_noNl _ hnlu
  have e4 : headingAfter ('•' :: ' ' :: t.dropWhile isWs) = '•' :: ' ' :: t.dropWhile isWs := by
    have hm0 : haMatchLen ('•' :: ' ' :: t.dropWhile isWs) = 0 :=
      haMatchLen_nonHash '•' _ (by decide)
    have hs := ha_start_noLT ('•' :: ' ' :: t.dropWhile isWs) hltu
    rw [hm0] at hs
    simpa using hs
  have e5 : paraSpace ('•' :: ' ' :: t.dropWhile isWs) = '•' :: ' ' :: t.dropWhile isWs :=
    ps_id_noNl _ hnlu
  have hwr0 : wsHead (t.dropWhile isWs) = false := wsHead_dropWhile t
  have e6 : collapseWs ('•' :: ' ' :: t.dropWhile isWs) =
      '•' :: ' ' :: cwAux false (t.dropWhile isWs) := by
    show cwAux false ('•' :: ' ' :: t.dropWhile isWs) = _
    rw [cw_head '•' _ false (by decide)]
    have hstep : cwAux false (' ' :: t.dropWhile isWs) = ' ' :: cwAux true (t.dropWhile isWs) := by
      simp [cwAux, show isWs ' ' = true from rfl, hwr0]
    rw [hstep, cw_true_eq_false _ hwr0]
  rw [e1, e2, e3, e4, e5, e6]
  have hXr := cw_last (t.dropWhile isWs) false ht' hlt'
  apply jsTrim_id
  · show isWs '•' = false
    decide
  · rw [show ('•' :: ' ' :: cwAux false (t.dropWhile isWs)).reverse =
        (cwAux false (t.dropWhile isWs)).reverse ++ [' ', '•'] from by simp]
    rw [wsHead_append_left _ _ (fun heq => hXr.1 (by simpa using heq))]
    exact hXr.2

/-- A lone bullet character normalizes to a lone bullet. -/
theorem fmt_bullet_nil (c : Char) (hb : isBullet c = true) : formatSummaryText [c] = ['•'] := by
  have h3 : (c = '-' ∨ c = '*') ∨ c = '•' := by
    simpa [isBullet] using hb
  rcases h3 with (h | h) | h <;> subst h <;> decide

/-- C4 counterexample: the pass is not idempotent. On the input space,
dash, space, x the first application only trims the leading space, since
the space hides the dash from the line-start bullet rule; the second
application then rewrites the now-leading dash to a bullet. -/
theorem c4_counterexample :
    formatSummaryText (str " - x") = str "- x" ∧
    formatSummaryText (formatSummaryText (str " - x")) = str "• x" ∧
    ((str "- x" : List Char) == str "• x") = false := by
  decide

/-- C4 amended: the pass is idempotent on every single-line input that
carries no leading or trailing whitespace, that is, on inputs containing
no line terminator (no LF, CR, U+2028 or U+2029, the characters after
which a multiline caret asserts) whose first and last characters are not
whitespace; it is not idempotent in general, the failures coming from
the final trim exposing line starts, and from newline interplay between
the heading rules and the whitespace rule. -/
theorem c4_amended (s : List Char) (hnl : noLT s = true) (hh : wsHead s = false)
    (hl : wsHead s.reverse = false) :
    formatSummaryText (formatSummaryText s) = formatSummaryText s := by
  cases s with
  | nil => rfl
  | cons c t =>
    obtain ⟨h1, h2⟩ := noLT_cons hnl
    by_cases hbul : isBullet c = true
    · by_cases htn : t = []
      · subst htn
        rw [fmt_bullet_nil c hbul]
        decide
      · have hrt : wsHead t.reverse = false := by
          rw [List.reverse_cons, wsHead_append_left _ _ (fun heq => htn (by simpa using heq))] at hl
          exact hl
        have ht' : t.dropWhile isWs ≠ [] := dropWhile_ne_nil_lastNonws t hrt htn
        have hlt' : wsHead (t.dropWhile isWs).reverse = false := wsHead_rev_dropWhile t hrt
        rw [fmt_bullet_cons c t hnl hbul ht' hlt']
        have hXr := cw_last (t.dropWhile isWs) false ht' hlt'
        have hwr : wsHead (cwAux false (t.dropWhile isWs)) = false := by
          obtain ⟨x, xs, hxx⟩ : ∃ x xs, t.dropWhile isWs = x :: xs := by
            cases hdw : t.dropWhile isWs with
            | nil => exact absurd hdw ht'
            | cons x xs => exact ⟨x, xs, rfl⟩
          have hx : isWs x = false := by
            have hw := wsHead_dropWhile t
            rw [hxx, wsHead] at hw
            exact hw
          rw [hxx, cw_head x xs false hx, wsHead]
          exact hx
        have hcwlt : noLT (cwAux false (t.dropWhile isWs)) = true :=
          cw_noLT _ false (noLT_dropWhile t h2)
        have hltu : noLT ('•' :: ' ' :: cwAux false (t.dropWhile isWs)) = true :=
          noLT_cons_of '•' _ (by decide) (noLT_cons_of ' ' _ (by decide) hcwlt)
        have hdr : (' ' :: cwAux false (t.dropWhile isWs)).dropWhile isWs =
            cwAux false (t.dropWhile isWs) := by
          rw [List.dropWhile_cons, if_pos (by decide)]
          exact dropWhile_id_headNonws _ hwr
        have step := fmt_bullet_cons '•' (' ' :: cwAux false (t.dropWhile isWs)) hltu
          (by decide) (by rw [hdr]; exact hXr.1) (by rw [hdr]; exact hXr.2)
        rw [hdr] at step
        rw [step]
        rw [cw_id _ (cwAux_noWsPair (t.dropWhile isWs) false)]
    · have hbf : isBullet c = false := by simpa using hbul
      rw [fmt_plain c t hnl hh hl hbf]
      have hX := cw_last (c :: t) false (by simp) hl
      have hXeq : cwAux false (c :: t) = c :: cwAux false t := cw_head c t false hh
      have hXlt : noLT (cwAux false (c :: t)) = true := cw_noLT (c :: t) false hnl
      have hXh : wsHead (cwAux false (c :: t)) = false := by
        rw [hXeq]
        exact hh
      rw [hXeq] at hXlt hXh hX ⊢
      rw [fmt_plain c (cwAux false t) hXlt hXh hX.2 hbf]
      have hnw : noWsPair (c :: cwAux false t) = true := by
        rw [← hXeq]
        exact cwAux_noWsPair (c :: t) false
      rw [cw_id (c :: cwAux false t) hnw]

/-- C4 amended, witness: the pass maps dash-space-x to the normalized
bullet form and is stable there. -/
theorem c4_amended_witness :
    formatSummaryText (formatSummaryText (str "- x")) = formatSummaryText (str "- x") :=
  c4_amended (str "- x") (by decide) (by decide) (by decide)
